import Mathlib

/-!
Shallow embedding of the STORYLINES core (analytics engine, filter engine,
layout-engine geometry and drag lifecycle) and proofs of the specification
claims about it.

Conventions of the embedding:
* JS numbers are modelled as `ℚ` (all arithmetic in the embedded code is
  exact decimal arithmetic on small values); counts are `ℕ`, years `ℤ`.
* A JS `Record<string, T>` / `Map<K, V>` is modelled as an association list
  in insertion order (JS objects and Maps enumerate keys in insertion
  order; `set` on an existing key updates in place).
* A JS `Set<string>` is modelled as a list without duplicate insertion
  (`add` appends only when absent), preserving insertion order.
* `undefined | T` fields are `Option`; JS truthiness tests (`if (x)`,
  `!x`, `x || y`) are expanded per type: a string is falsy iff empty,
  a number is falsy iff `0`, `undefined`/`null` are falsy.
* JS `Math.round x` is `⌊x + 1/2⌋` (round half toward +∞), matching the
  JS semantics on the rationals produced here.
-/

namespace Analytics

/-- Node record used by the analytics and filter engines
(`src/types`: `id` is the record key; `type` is kept as a raw string as at
runtime, the engines compare it against the literals `book`/`author`/`theme`). -/
structure Node where
  label : String
  type : String
  imageUrl : Option String := none
  description : Option String := none
  series : Option String := none
  publicationYear : Option ℤ := none
deriving Repr, DecidableEq

/-- Edge record: the analytics engine reads only `source` and `target`
(node-id references, possibly dangling). -/
structure Edge where
  source : String
  target : String
deriving Repr, DecidableEq

/-- Truthiness of an optional JS string (`undefined` and `""` are falsy). -/
def jsStrTruthy : Option String → Bool
  | none => false
  | some s => !(s = "")

/-- Truthiness of an optional JS number (`undefined` and `0` are falsy). -/
def jsIntTruthy : Option ℤ → Bool
  | none => false
  | some y => !(y = 0)

/-- JS `Math.round`: round half toward positive infinity. -/
def jsRound (x : ℚ) : ℤ := Rat.floor (x + 1/2)

/-- Stable sort (insertion sort): `le a b = true` keeps `a` before `b`.
JS `Array.prototype.sort` with a numeric comparator is a stable sort; a
stable sort's output is unique for a total preorder comparator, so this
models the source's `.sort((a, b) => b.k - a.k)` calls faithfully with
`le a b := decide (b.k ≤ a.k)`. -/
def orderedInsert (le : α → α → Bool) (a : α) : List α → List α
  | [] => [a]
  | b :: l => if le a b then a :: b :: l else b :: orderedInsert le a l

/-- Stable insertion sort driver, see `orderedInsert`. -/
def sortBy (le : α → α → Bool) : List α → List α
  | [] => []
  | a :: l => orderedInsert le a (sortBy le l)

/-- Node statistics record (`NodeStats` in `src/utils/analytics.ts`). -/
structure NodeStats where
  total : ℕ
  byTypeBook : ℕ
  byTypeAuthor : ℕ
  byTypeTheme : ℕ
  withImages : ℕ
  withDescriptions : ℕ
  withSeries : ℕ
deriving Repr, DecidableEq

/-- Entry of the `mostConnected` / `leastConnected` rankings. -/
structure ConnEntry where
  nodeId : String
  label : String
  connections : ℕ
deriving Repr, DecidableEq

/-- Edge statistics record (`EdgeStats` in `src/utils/analytics.ts`). -/
structure EdgeStats where
  total : ℕ
  averageConnections : ℚ
  mostConnected : List ConnEntry
  leastConnected : List ConnEntry
deriving Repr, DecidableEq

/-- Connectivity statistics record (`ConnectivityStats`). -/
structure ConnectivityStats where
  averageDegree : ℚ
  density : ℚ
  clusters : ℕ
  isolatedNodes : ℕ
deriving Repr, DecidableEq

/-- Content statistics record (`ContentStats`). -/
structure ContentStats where
  totalSeries : ℕ
  seriesDistribution : List (String × ℕ)
  topThemes : List (String × ℕ)
  topAuthors : List (String × ℕ)
deriving Repr, DecidableEq

/-- Temporal statistics record (`TemporalStats`).  A decade-histogram entry
`{decade: "1990s", count}` is represented by the decade number `1990`
(the label `"{decade}s"` determines and is determined by it; the source's
sort key `parseInt(label)` recovers exactly this number). -/
structure TemporalStats where
  earliestYear : Option ℤ
  latestYear : Option ℤ
  yearRange : ℤ
  booksPerDecade : List (ℤ × ℕ)
deriving Repr, DecidableEq

/-- Combined statistics record (`GraphStats`). -/
structure GraphStats where
  nodes : NodeStats
  edges : EdgeStats
  connectivity : ConnectivityStats
  content : ContentStats
  temporal : TemporalStats
deriving Repr, DecidableEq

/-- Record of nodes keyed by id: association list in insertion order
(JS object keys are unique; theorems that depend on uniqueness take a
`Nodup` hypothesis on the key list). -/
abbrev NodeRec := List (String × Node)

/-- Lookup `nodes[id]` in the record. -/
def recLookup (nodes : NodeRec) (id : String) : Option Node :=
  (nodes.find? (fun p => p.1 = id)).map Prod.snd

/-- Increment counter for `k` in a `Map<κ, number>`:
`m.set(k, (m.get(k) || 0) + 1)` — updates in place if present, else
appends at the end (JS Map insertion-order semantics). -/
def bump [DecidableEq κ] (m : List (κ × ℕ)) (k : κ) : List (κ × ℕ) :=
  if m.any (fun p => p.1 = k) then
    m.map (fun p => if p.1 = k then (p.1, p.2 + 1) else p)
  else m ++ [(k, 1)]

/-- A `Map<κ, number>.set(k, v)`: update in place if present, else append. -/
def setKey [DecidableEq κ] (m : List (κ × ℕ)) (k : κ) (v : ℕ) : List (κ × ℕ) :=
  if m.any (fun p => p.1 = k) then
    m.map (fun p => if p.1 = k then (p.1, v) else p)
  else m ++ [(k, v)]

/-- The `connectionCount` map of `calculateEdgeStats`: every edge
increments both endpoints' counters by one (endpoints need not be node
ids of the record). -/
def connectionCount (edges : List Edge) : List (String × ℕ) :=
  edges.foldl (fun m e => bump (bump m e.source) e.target) []

/-- Label shown for a ranked node: `nodes[nodeId]?.label || nodeId`. -/
def connLabel (nodes : NodeRec) (nodeId : String) : String :=
  match recLookup nodes nodeId with
  | some n => if n.label = "" then nodeId else n.label
  | none => nodeId

/-- The sorted `nodeConnections` list of `calculateEdgeStats`:
map entries in insertion order, sorted by connections descending
(stable, ties keep insertion order). -/
def nodeConnections (nodes : NodeRec) (edges : List Edge) : List ConnEntry :=
  sortBy (fun a b => decide (b.connections ≤ a.connections))
    ((connectionCount edges).map
      (fun p => ⟨p.1, connLabel nodes p.1, p.2⟩))

/-- JS `slice(-5)` on a list: the last (up to) five elements. -/
def lastFive (l : List α) : List α := l.drop (l.length - 5)

/-- The `calculateEdgeStats` function of `src/utils/analytics.ts`. -/
def calculateEdgeStats (nodes : NodeRec) (edges : List Edge) : EdgeStats :=
  let cc := connectionCount edges
  let totalConnections : ℕ := (cc.map Prod.snd).sum
  let avgConnections : ℚ :=
    if 0 < cc.length then (totalConnections : ℚ) / (cc.length : ℚ) else 0
  { total := edges.length
    averageConnections := (jsRound (avgConnections * 10) : ℚ) / 10
    mostConnected := (nodeConnections nodes edges).take 5
    leastConnected := (lastFive (nodeConnections nodes edges)).reverse }

/-- Adjacency map: association list `id ↦ neighbor set` (set modelled as a
duplicate-free list in insertion order). -/
abbrev Adjacency := List (String × List String)

/-- One `adjacency.get(a)?.add(b)` step: no-op when `a` has no entry;
otherwise appends `b` to `a`'s neighbor set when absent. -/
def addNeighbor (m : Adjacency) (a b : String) : Adjacency :=
  m.map (fun p => if p.1 = a then (p.1, if b ∈ p.2 then p.2 else p.2 ++ [b]) else p)

/-- The adjacency list built by `calculateConnectivityStats`: an empty
neighbor set per node id, then per edge both directed insertions (each a
no-op when the endpoint is not a node id). -/
def buildAdjacency (nodes : NodeRec) (edges : List Edge) : Adjacency :=
  edges.foldl
    (fun m e => addNeighbor (addNeighbor m e.source e.target) e.target e.source)
    (nodes.map (fun p => (p.1, ([] : List String))))

/-- Neighbor set lookup used by the DFS: `adjacency.get(v)` with a missing
entry behaving as the empty set (`?.forEach` no-op). -/
def adjLookup (m : Adjacency) (v : String) : List String :=
  ((m.find? (fun p => p.1 = v)).map Prod.snd).getD []

/-- Depth-first traversal of `calculateConnectivityStats`: marks `v`
visited, then recursively visits each not-yet-visited neighbor.  The
source recursion terminates because each call marks a fresh id; here the
same recursion carries explicit fuel, with enough fuel supplied at the
call site (every nested call has marked one more of the finitely many
ids, so depth is bounded by their number). -/
def dfs (adj : Adjacency) : ℕ → String → List String → List String
  | 0, _, visited => visited
  | fuel + 1, v, visited =>
    (adjLookup adj v).foldl
      (fun vis nb => if nb ∈ vis then vis else dfs adj fuel nb vis)
      (v :: visited)

/-- Fuel bound for `dfs`: strictly more than the number of ids that can
ever be visited (node ids plus both endpoints of every edge). -/
def dfsFuel (nodes : NodeRec) (edges : List Edge) : ℕ :=
  nodes.length + 2 * edges.length + 1

/-- The cluster-counting loop of `calculateConnectivityStats`: one DFS
launch (and one counter increment) per not-yet-visited node id. -/
def clusterLoop (adj : Adjacency) (fuel : ℕ) (keys : List String) :
    List String × ℕ :=
  keys.foldl
    (fun st id => if id ∈ st.1 then st else (dfs adj fuel id st.1, st.2 + 1))
    ([], 0)

/-- The `calculateConnectivityStats` function of `src/utils/analytics.ts`. -/
def calculateConnectivityStats (nodes : NodeRec) (edges : List Edge) :
    ConnectivityStats :=
  let nodeCount := nodes.length
  let edgeCount := edges.length
  let adjacency := buildAdjacency nodes edges
  let totalDegree : ℕ := (adjacency.map (fun p => p.2.length)).sum
  let averageDegree : ℚ :=
    if 0 < nodeCount then (totalDegree : ℚ) / (nodeCount : ℚ) else 0
  let maxEdges : ℚ := ((nodeCount : ℚ) * ((nodeCount : ℚ) - 1)) / 2
  let density : ℚ := if 0 < maxEdges then (edgeCount : ℚ) / maxEdges else 0
  { averageDegree := (jsRound (averageDegree * 10) : ℚ) / 10
    density := (jsRound (density * 1000) : ℚ) / 1000
    clusters := (clusterLoop adjacency (dfsFuel nodes edges) (nodes.map Prod.fst)).2
    isolatedNodes := (adjacency.filter (fun p => p.2.length = 0)).length }

/-- Number of edges whose `source` or `target` string equals `label`
(the edge-connection count used for theme ranking in
`calculateContentStats`; note the comparison is against the node label,
not its id). -/
def edgeCountByLabel (edges : List Edge) (label : String) : ℕ :=
  (edges.filter (fun e => e.source = label || e.target = label)).length

/-- Book-edge count for an author label in `calculateContentStats`: edges
touching the author's label where at least one endpoint string is the
label of some book-typed node. -/
def authorBookCount (nodeList : List Node) (edges : List Edge)
    (label : String) : ℕ :=
  (edges.filter (fun e =>
    (e.source = label || e.target = label) &&
    (((nodeList.find? (fun n => n.label = e.source)).map
        (fun n => n.type)).getD "" = "book" ||
     ((nodeList.find? (fun n => n.label = e.target)).map
        (fun n => n.type)).getD "" = "book"))).length

/-- The `calculateContentStats` function of `src/utils/analytics.ts`. -/
def calculateContentStats (nodeList : List Node) (edges : List Edge) :
    ContentStats :=
  let seriesMap :=
    (nodeList.filter (fun n => jsStrTruthy n.series)).foldl
      (fun m n => bump m (n.series.getD "")) []
  let seriesDistribution :=
    sortBy (fun a b => decide (b.2 ≤ a.2)) seriesMap
  let themeConnections :=
    (nodeList.filter (fun n => n.type = "theme")).foldl
      (fun m n => setKey m n.label (edgeCountByLabel edges n.label)) []
  let topThemes :=
    (sortBy (fun a b => decide (b.2 ≤ a.2)) themeConnections).take 10
  let authorBooks :=
    (nodeList.filter (fun n => n.type = "author")).foldl
      (fun m n => setKey m n.label (authorBookCount nodeList edges n.label)) []
  let topAuthors :=
    (sortBy (fun a b => decide (b.2 ≤ a.2)) authorBooks).take 10
  { totalSeries := seriesMap.length
    seriesDistribution := seriesDistribution.take 10
    topThemes := topThemes
    topAuthors := topAuthors }

/-- The `calculateTemporalStats` function of `src/utils/analytics.ts`.
`Math.floor(year / 10) * 10` is floor division, i.e. `Int` division by the
positive literal `10`. -/
def calculateTemporalStats (nodeList : List Node) : TemporalStats :=
  let years : List ℤ :=
    (nodeList.filter (fun n => jsIntTruthy n.publicationYear)).map
      (fun n => n.publicationYear.getD 0)
  match years with
  | [] =>
    { earliestYear := none, latestYear := none, yearRange := 0
      booksPerDecade := [] }
  | y :: ys =>
    let earliestYear := ys.foldl min y
    let latestYear := ys.foldl max y
    let decadeMap := (y :: ys).foldl (fun m yr => bump m (yr / 10 * 10)) []
    { earliestYear := some earliestYear
      latestYear := some latestYear
      yearRange := latestYear - earliestYear
      booksPerDecade := sortBy (fun a b => decide (a.1 ≤ b.1)) decadeMap }

/-- The `calculateNodeStats` function of `src/utils/analytics.ts`
(applied to `Object.values(nodes)`). -/
def calculateNodeStats (nodeList : List Node) : NodeStats :=
  { total := nodeList.length
    byTypeBook := (nodeList.filter (fun n => n.type = "book")).length
    byTypeAuthor := (nodeList.filter (fun n => n.type = "author")).length
    byTypeTheme := (nodeList.filter (fun n => n.type = "theme")).length
    withImages := (nodeList.filter (fun n => jsStrTruthy n.imageUrl)).length
    withDescriptions := (nodeList.filter (fun n => jsStrTruthy n.description)).length
    withSeries := (nodeList.filter (fun n => jsStrTruthy n.series)).length }

/-- The `calculateGraphStats` entry point of `src/utils/analytics.ts`:
comprehensive statistics for a `(nodes, edges)` snapshot
(`nodeList = Object.values(nodes)`). -/
def calculateGraphStats (nodes : NodeRec) (edges : List Edge) : GraphStats :=
  let nodeList := nodes.map Prod.snd
  { nodes := calculateNodeStats nodeList
    edges := calculateEdgeStats nodes edges
    connectivity := calculateConnectivityStats nodes edges
    content := calculateContentStats nodeList edges
    temporal := calculateTemporalStats nodeList }

/-- Stream of endpoint ids of an edge list, `source` then `target` per
edge, in edge order (the order in which `calculateEdgeStats` touches the
`connectionCount` map). -/
def endpointStream : List Edge → List String
  | [] => []
  | e :: es => e.source :: e.target :: endpointStream es

/-- One step of first-occurrence deduplication: append `x` when absent. -/
def dedupStep [DecidableEq α] (acc : List α) (x : α) : List α :=
  if x ∈ acc then acc else acc ++ [x]

/-- First-occurrence deduplication keeping insertion order — the key
enumeration order of a JS `Map` populated from a stream. -/
def firstDedup [DecidableEq α] (l : List α) : List α :=
  l.foldl dedupStep []

end Analytics

namespace Filters

open Analytics (Node jsStrTruthy)

/-- Year-filter modes of `PublicationYearFilterConfig`. -/
inductive YearMode | range | before | after | exact
deriving Repr, DecidableEq

/-- Series-filter modes of `SeriesFilterConfig` (`incl`/`excl` stand for
the source's `'include' | 'exclude'`; `include` is reserved in Lean). -/
inductive SeriesMode | incl | excl
deriving Repr, DecidableEq

/-- Keyword match modes of `DescriptionFilterConfig`. -/
inductive MatchMode | any | all
deriving Repr, DecidableEq

/-- Filter configuration union (`FilterConfig` in the source).  The
source stores a `type` string tag next to an unchecked `config` cast; in
well-formed data the tag and the config shape agree, so the pair is
modelled as a single tagged union. -/
inductive FilterConfig where
  | nodeType (book author theme : Bool)
  | publicationYear (mode : YearMode)
      (minYear maxYear exactYear : Option ℤ)
  | series (mode : SeriesMode) (seriesNames : List String)
  | description (keywords : List String) (matchMode : MatchMode)
      (caseSensitive : Bool)
  | custom (filterFunction : String)
deriving Repr, DecidableEq

/-- A filter criterion (`FilterCriteria` in the source). -/
structure FilterCriteria where
  id : String
  name : String
  enabled : Bool
  config : FilterConfig
deriving Repr, DecidableEq

/-- JS `String.prototype.includes`: contiguous substring test. -/
def jsIncludes (s sub : String) : Bool := decide (sub.toList <:+: s.toList)

/-- The `applyCriterion` function of the filter engine: evaluate one
criterion against one node; a disabled criterion always passes. -/
def applyCriterion (node : Node) (c : FilterCriteria) : Bool :=
  if !c.enabled then true
  else
    match c.config with
    | .nodeType book author theme =>
      -- `config.types[node.type] ?? true`: unknown type strings pass.
      match node.type with
      | "book" => book
      | "author" => author
      | "theme" => theme
      | _ => true
    | .publicationYear mode minYear maxYear exactYear =>
      match node.publicationYear with
      | none => false   -- `if (!year) return false`
      | some y =>
        if y = 0 then false   -- `0` is falsy in `!year` as well
        else
          match mode with
          | .range => decide (minYear.getD 0 ≤ y ∧ y ≤ maxYear.getD 9999)
          | .before => decide (y < maxYear.getD 9999)
          | .after => decide (minYear.getD 0 < y)
          | .exact =>
            -- `year === config.exactYear` is false when `exactYear` is absent
            match exactYear with
            | none => false
            | some e => decide (y = e)
    | .series mode seriesNames =>
      -- `node.series && seriesNames.includes(node.series)`: a missing or
      -- empty series is falsy, making the conjunction falsy.
      let hasSeries :=
        match node.series with
        | none => false
        | some s => !(s = "") && seriesNames.contains s
      match mode with
      | .incl => hasSeries
      | .excl => !hasSeries
    | .description keywords matchMode caseSensitive =>
      let descr := (node.description.getD "").toLower
      let kwMatches := keywords.map (fun kw =>
        jsIncludes descr (if caseSensitive then kw else kw.toLower))
      match matchMode with
      | .all => kwMatches.all id
      | .any => kwMatches.any id
    | .custom _ => true   -- custom filters are skipped (always pass)

/-- The `applyFilters` function: AND composition over all criteria. -/
def applyFilters (node : Node) (criteria : List FilterCriteria) : Bool :=
  criteria.all (fun c => applyCriterion node c)

/-- The `filterNodes` function: keep the record entries whose node passes
`applyFilters`. -/
def filterNodes (nodes : Analytics.NodeRec) (criteria : List FilterCriteria) :
    Analytics.NodeRec :=
  nodes.filter (fun p => applyFilters p.2 criteria)

end Filters

namespace GraphEngine

/-- Node-type enumeration of `src/src/types/index.ts`. -/
inductive NodeType | author | book | genre | theme | character | movement
deriving Repr, DecidableEq

/-- Graph node as seen by the layout engine (`GraphNode`): optional
position and velocity (absent until the simulation places the node),
optional pin `fx, fy`.  `metadata` and other display-only fields are not
read by the engine operations modelled here and are omitted. -/
structure GraphNode where
  id : String
  type : NodeType
  label : String
  x : Option ℚ := none
  y : Option ℚ := none
  vx : Option ℚ := none
  vy : Option ℚ := none
  fx : Option ℚ := none
  fy : Option ℚ := none
  expanded : Bool := false
  depth : ℚ
deriving Repr, DecidableEq

/-- Engine configuration (`GraphEngineConfig`). -/
structure GraphEngineConfig where
  width : ℚ
  height : ℚ
  nodeRadius : ℚ
  linkDistance : ℚ
  chargeStrength : ℚ
  enableCollision : Bool
deriving Repr, DecidableEq

/-- Default configuration of the `GraphEngine` constructor. -/
def defaultConfig : GraphEngineConfig :=
  { width := 1200, height := 800, nodeRadius := 8, linkDistance := 100
    chargeStrength := -300, enableCollision := true }

/-- The `getNodeTypeMultiplier` lookup table; the `|| 1.0` fallback of the
source is unreachable for the closed `NodeType` enumeration. -/
def getNodeTypeMultiplier : NodeType → ℚ
  | .author => 13/10
  | .book => 1
  | .genre => 11/10
  | .theme => 9/10
  | .character => 8/10
  | .movement => 12/10

/-- The `getNodeRadius` method:
`baseRadius * typeMultiplier * (1 + (3 - depth) * 0.2)`. -/
def getNodeRadius (cfg : GraphEngineConfig) (node : GraphNode) : ℚ :=
  cfg.nodeRadius * getNodeTypeMultiplier node.type * (1 + (3 - node.depth) * (2/10))

/-- Hit test of one node in `findNodeAt`, as a predicate: the node has a
truthy `x` and `y` (present and nonzero — `!node.x || !node.y` also skips
coordinate `0`), and the point lies within `getNodeRadius` of it.  The
source compares `Math.sqrt (dx² + dy²) ≤ radius`, which in exact
arithmetic is equivalent to `0 ≤ radius ∧ dx² + dy² ≤ radius²`. -/
def nodeHit (cfg : GraphEngineConfig) (x y : ℚ) (n : GraphNode) : Bool :=
  match n.x, n.y with
  | some nx, some ny =>
    if nx = 0 ∨ ny = 0 then false
    else
      let dx := x - nx
      let dy := y - ny
      let radius := getNodeRadius cfg n
      decide (0 ≤ radius ∧ dx ^ 2 + dy ^ 2 ≤ radius ^ 2)
  | _, _ => false

/-- The `findNodeAt` method: scan nodes in input order; `continue` past
nodes whose `x` or `y` is falsy (absent or `0`); return the first node
whose disk contains the point, else `null`. -/
def findNodeAt (cfg : GraphEngineConfig) (x y : ℚ) :
    List GraphNode → Option GraphNode
  | [] => none
  | n :: rest =>
    match n.x, n.y with
    | some nx, some ny =>
      if nx = 0 ∨ ny = 0 then findNodeAt cfg x y rest
      else
        let dx := x - nx
        let dy := y - ny
        let radius := getNodeRadius cfg n
        if 0 ≤ radius ∧ dx ^ 2 + dy ^ 2 ≤ radius ^ 2 then some n
        else findNodeAt cfg x y rest
    | _, _ => findNodeAt cfg x y rest

/-- Hit-test scan as the specification words it (`findNodeAt(x, y, nodes)
-> Node | null`: first node in input order within its radius, skipping
only nodes that lack a position): identical to `findNodeAt` except that
nodes positioned at coordinate `0` are not skipped. -/
def findNodeAtSpecModel (cfg : GraphEngineConfig) (x y : ℚ) :
    List GraphNode → Option GraphNode
  | [] => none
  | n :: rest =>
    match n.x, n.y with
    | some nx, some ny =>
      let dx := x - nx
      let dy := y - ny
      let radius := getNodeRadius cfg n
      if 0 ≤ radius ∧ dx ^ 2 + dy ^ 2 ≤ radius ^ 2 then some n
      else findNodeAtSpecModel cfg x y rest
    | _, _ => findNodeAtSpecModel cfg x y rest

/-- The `dragStarted` method's effect on the dragged node: pin it at its
current position (`fx = x`, `fy = y`).  The simulation-energy effects
(`alphaTarget`, `restart`) have no node state; with no simulation
attached the method returns before touching the node. -/
def dragStarted (hasSimulation : Bool) (node : GraphNode) : GraphNode :=
  if !hasSimulation then node else { node with fx := node.x, fy := node.y }

/-- The `dragged` method: move the pin to the pointer event coordinates. -/
def dragged (node : GraphNode) (ex ey : ℚ) : GraphNode :=
  { node with fx := some ex, fy := some ey }

/-- The `dragEnded` method: lowers simulation energy only; the optional
pin release (`node.fx = null; node.fy = null`) is commented out in the
source, so the node state is unchanged. -/
def dragEnded (_hasSimulation : Bool) (node : GraphNode) : GraphNode :=
  node

end GraphEngine

namespace Analytics

/-- Decimal digit character for a digit value below ten. -/
def digitChar (d : ℕ) : Char :=
  if d = 0 then '0' else if d = 1 then '1' else if d = 2 then '2'
  else if d = 3 then '3' else if d = 4 then '4' else if d = 5 then '5'
  else if d = 6 then '6' else if d = 7 then '7' else if d = 8 then '8'
  else '9'

/-- Digit value of a decimal digit character, `none` for anything else. -/
def charToDigit (c : Char) : Option ℕ :=
  if c = '0' then some 0 else if c = '1' then some 1 else if c = '2' then some 2
  else if c = '3' then some 3 else if c = '4' then some 4 else if c = '5' then some 5
  else if c = '6' then some 6 else if c = '7' then some 7 else if c = '8' then some 8
  else if c = '9' then some 9 else none

/-- Decimal digits of a natural number, least significant first. -/
def natDigitsRev (n : ℕ) : List ℕ :=
  if n < 10 then [n] else n % 10 :: natDigitsRev (n / 10)
decreasing_by exact Nat.div_lt_self (by omega) (by omega)

/-- Decimal rendering of a natural number (JS `${n}` for an integral
nonnegative number). -/
def natToChars (n : ℕ) : List Char :=
  (natDigitsRev n).reverse.map digitChar

/-- Decimal rendering of an integer (JS `${z}`). -/
def intToChars (z : ℤ) : List Char :=
  if z < 0 then '-' :: natToChars z.natAbs else natToChars z.natAbs

/-- Rendering of a rational statistics value.  The source interpolates a
JS number here (shortest round-trip decimal); the embedding renders
`num/den` instead — the CSV claims depend only on this text containing no
newline, not on its digits. -/
def qToChars (q : ℚ) : List Char :=
  intToChars q.num ++ (if q.den = 1 then [] else '/' :: natToChars q.den)

/-- Rendering of the `Latest,${stats.temporal.latestYear}` value: JS
prints `null` for a null year. -/
def optIntToChars : Option ℤ → List Char
  | none => "null".data
  | some z => intToChars z

/-- The `lines` array pushed by `exportStatsAsCSV`, in order; the
temporal section is appended only when `earliestYear` is truthy. -/
def csvLines (stats : GraphStats) : List (List Char) :=
  [ "Graph Statistics Export".data, [],
    "Node Statistics".data,
    "Total Nodes,".data ++ natToChars stats.nodes.total,
    "Books,".data ++ natToChars stats.nodes.byTypeBook,
    "Authors,".data ++ natToChars stats.nodes.byTypeAuthor,
    "Themes,".data ++ natToChars stats.nodes.byTypeTheme,
    "With Images,".data ++ natToChars stats.nodes.withImages,
    [],
    "Edge Statistics".data,
    "Total Edges,".data ++ natToChars stats.edges.total,
    "Average Connections,".data ++ qToChars stats.edges.averageConnections,
    [],
    "Connectivity".data,
    "Average Degree,".data ++ qToChars stats.connectivity.averageDegree,
    "Density,".data ++ qToChars stats.connectivity.density,
    "Clusters,".data ++ natToChars stats.connectivity.clusters,
    [] ] ++
  (if jsIntTruthy stats.temporal.earliestYear then
    [ "Temporal Range".data,
      "Earliest,".data ++ intToChars (stats.temporal.earliestYear.getD 0),
      "Latest,".data ++ optIntToChars stats.temporal.latestYear,
      "Range,".data ++ intToChars stats.temporal.yearRange ++ " years".data ]
   else [])

/-- JS `Array.prototype.join('\n')` over the line list. -/
def joinLines (sep : Char) : List (List Char) → List Char
  | [] => []
  | [l] => l
  | l :: l' :: rest => l ++ sep :: joinLines sep (l' :: rest)

/-- The `exportStatsAsCSV` function of `src/utils/analytics.ts`:
`lines.join('\n')` over the pushed lines. -/
def exportStatsAsCSV (stats : GraphStats) : List Char :=
  joinLines '\n' (csvLines stats)

/-- Split a text on a separator character (inverse of `joinLines` on
separator-free lines) — the claim-side re-parsing of the CSV text into
its rows. -/
def splitOnChar (sep : Char) : List Char → List (List Char)
  | [] => [[]]
  | c :: cs =>
    match splitOnChar sep cs with
    | [] => [[]]
    | r :: rs => if c = sep then [] :: r :: rs else (c :: r) :: rs

/-- Key of a `key,value` CSV row: the text before the first comma. -/
def csvKey (line : List Char) : List Char :=
  line.takeWhile (fun c => !(c = ','))

/-- Value of a `key,value` CSV row: the text after the first comma. -/
def csvValue (line : List Char) : List Char :=
  (line.dropWhile (fun c => !(c = ','))).drop 1

/-- Parse a value text as a decimal natural number (all characters must
be digits, at least one). -/
def digitsToNat (cs : List Char) : Option ℕ :=
  if cs = [] then none
  else if cs.all (fun c => (charToDigit c).isSome) then
    some (cs.foldl (fun a c => a * 10 + (charToDigit c).getD 0) 0)
  else none

/-- Re-parse a CSV text for the numeric value of the row with the given
key: split into rows on newlines, find the first `key,value` row with
that key, parse its value as a natural number. -/
def csvLookupNat (text key : List Char) : Option ℕ :=
  match (splitOnChar '\n' text).find? (fun line => decide (csvKey line = key)) with
  | none => none
  | some line => digitsToNat (csvValue line)

/-- Adjacency construction over an empty node record yields the empty
map: every insertion is a no-op on a map with no entries. -/
theorem buildAdjacency_nil (edges : List Edge) : buildAdjacency [] edges = [] := by
  show edges.foldl _ ([] : Adjacency) = []
  induction edges with
  | nil => rfl
  | cons e es ih => simpa [addNeighbor] using ih

/-- Visited lists only grow along a depth-first traversal. -/
theorem dfs_subset (adj : Adjacency) :
    ∀ (fuel : ℕ) (v : String) (vis : List String), vis ⊆ dfs adj fuel v vis := by
  intro fuel
  induction fuel with
  | zero => intro v vis; simp [dfs]
  | succ n ih =>
    intro v vis
    simp only [dfs]
    have hfold : ∀ (l w : List String),
        w ⊆ l.foldl (fun vis nb => if nb ∈ vis then vis else dfs adj n nb vis) w := by
      intro l
      induction l with
      | nil => intro w; simp
      | cons nb rest ihl =>
        intro w
        rw [List.foldl_cons]
        have h1 : w ⊆ (if nb ∈ w then w else dfs adj n nb w) := by
          split
          · exact fun x hx => hx
          · exact ih nb w
        exact fun x hx => ihl _ (h1 hx)
    exact fun x hx => hfold _ (v :: vis) (List.mem_cons_of_mem _ hx)

/-- Visited lists only grow along the neighbor fold inside `dfs`. -/
theorem dfsFold_subset (adj : Adjacency) (n : ℕ) :
    ∀ (l w : List String),
      w ⊆ l.foldl (fun vis nb => if nb ∈ vis then vis else dfs adj n nb vis) w := by
  intro l
  induction l with
  | nil => intro w; simp
  | cons nb rest ihl =>
    intro w
    rw [List.foldl_cons]
    have h1 : w ⊆ (if nb ∈ w then w else dfs adj n nb w) := by
      split
      · exact fun x hx => hx
      · exact dfs_subset adj n nb w
    exact fun x hx => ihl _ (h1 hx)

/-- A launched depth-first traversal marks its root visited. -/
theorem dfs_mem_self (adj : Adjacency) (n : ℕ) (v : String) (vis : List String) :
    v ∈ dfs adj (n + 1) v vis := by
  simp only [dfs]
  exact dfsFold_subset adj n _ (v :: vis) (List.mem_cons_self v vis)

/-- Every element of the iterated neighbor list ends up visited, given at
least one unit of fuel for the nested calls. -/
theorem dfsFold_mem (adj : Adjacency) (n : ℕ) (hn : 1 ≤ n) :
    ∀ (l w : List String) (x : String), x ∈ l →
      x ∈ l.foldl (fun vis nb => if nb ∈ vis then vis else dfs adj n nb vis) w := by
  intro l
  induction l with
  | nil => intro w x hx; simp at hx
  | cons nb rest ihl =>
    intro w x hx
    rw [List.foldl_cons]
    rcases List.mem_cons.mp hx with rfl | hx'
    · have hstep : x ∈ (if x ∈ w then w else dfs adj n x w) := by
        split
        · assumption
        · obtain ⟨m, rfl⟩ : ∃ m, n = m + 1 := ⟨n - 1, by omega⟩
          exact dfs_mem_self adj m x w
      exact dfsFold_subset adj n rest _ hstep
    · exact ihl _ x hx'

/-- With fuel at least two, a depth-first traversal visits every direct
neighbor of its root. -/
theorem dfs_mem_adj (adj : Adjacency) (n : ℕ) (hn : 1 ≤ n) (v : String)
    (vis : List String) : ∀ nb ∈ adjLookup adj v, nb ∈ dfs adj (n + 1) v vis := by
  intro nb hnb
  simp only [dfs]
  exact dfsFold_mem adj n hn _ _ nb hnb

/-- Inserting a neighbor does not change the key list of the adjacency
map. -/
theorem addNeighbor_keys (m : Adjacency) (a b : String) :
    (addNeighbor m a b).map Prod.fst = m.map Prod.fst := by
  unfold addNeighbor
  rw [List.map_map]
  apply List.map_congr_left
  intro p _
  by_cases hp : p.1 = a <;> simp [hp]

/-- Inserting a neighbor of `a` records it: when `a` has an entry,
`b` is in `a`'s neighbor set afterwards. -/
theorem adjLookup_addNeighbor_self (m : Adjacency) (a b : String)
    (h : a ∈ m.map Prod.fst) : b ∈ adjLookup (addNeighbor m a b) a := by
  induction m with
  | nil => simp at h
  | cons q rest ih =>
    have hcons : addNeighbor (q :: rest) a b =
        (if q.1 = a then (q.1, if b ∈ q.2 then q.2 else q.2 ++ [b]) else q) ::
          addNeighbor rest a b := by
      simp [addNeighbor]
    rw [hcons]
    by_cases hqa : q.1 = a
    · rw [if_pos hqa]
      unfold adjLookup
      rw [List.find?_cons_of_pos _ (by simpa using hqa)]
      show b ∈ (if b ∈ q.2 then q.2 else q.2 ++ [b])
      split
      · assumption
      · exact List.mem_append_right _ (List.mem_singleton.mpr rfl)
    · rw [if_neg hqa]
      rw [List.map_cons] at h
      have ha : a ∈ rest.map Prod.fst := by
        rcases List.mem_cons.mp h with h1 | h1
        · exact absurd h1.symm hqa
        · exact h1
      unfold adjLookup
      rw [List.find?_cons_of_neg _ (by simpa using hqa)]
      exact ih ha

/-- Inserting a neighbor preserves existing neighbor-set membership. -/
theorem adjLookup_addNeighbor_mono (m : Adjacency) (a b v c : String)
    (h : c ∈ adjLookup m v) : c ∈ adjLookup (addNeighbor m a b) v := by
  induction m with
  | nil => simp [adjLookup] at h
  | cons q rest ih =>
    have hcons : addNeighbor (q :: rest) a b =
        (if q.1 = a then (q.1, if b ∈ q.2 then q.2 else q.2 ++ [b]) else q) ::
          addNeighbor rest a b := by
      simp [addNeighbor]
    rw [hcons]
    by_cases hqv : q.1 = v
    · have hlook : adjLookup (q :: rest) v = q.2 := by
        unfold adjLookup
        rw [List.find?_cons_of_pos _ (by simpa using hqv)]
        rfl
      rw [hlook] at h
      by_cases hqa : q.1 = a
      · rw [if_pos hqa]
        unfold adjLookup
        rw [List.find?_cons_of_pos _ (by simpa using hqv)]
        show c ∈ (if b ∈ q.2 then q.2 else q.2 ++ [b])
        split
        · assumption
        · exact List.mem_append_left _ h
      · rw [if_neg hqa]
        unfold adjLookup
        rw [List.find?_cons_of_pos _ (by simpa using hqv)]
        show c ∈ q.2
        exact h
    · have hlook : adjLookup (q :: rest) v = adjLookup rest v := by
        unfold adjLookup
        rw [List.find?_cons_of_neg _ (by simpa using hqv)]
      rw [hlook] at h
      split
      · unfold adjLookup
        rw [List.find?_cons_of_neg _ (by simpa using hqv)]
        exact ih h
      · unfold adjLookup
        rw [List.find?_cons_of_neg _ (by simpa using hqv)]
        exact ih h

/-- Key list of the built adjacency map: exactly the node ids (a dangling
edge endpoint never receives an entry of its own). -/
theorem buildAdjacency_keys (nodes : NodeRec) (edges : List Edge) :
    (buildAdjacency nodes edges).map Prod.fst = nodes.map Prod.fst := by
  unfold buildAdjacency
  have hfold : ∀ (es : List Edge) (m : Adjacency),
      (es.foldl
        (fun m e => addNeighbor (addNeighbor m e.source e.target) e.target e.source)
        m).map Prod.fst = m.map Prod.fst := by
    intro es
    induction es with
    | nil => intro m; rfl
    | cons e es ih => intro m; rw [List.foldl_cons, ih, addNeighbor_keys, addNeighbor_keys]
  rw [hfold, List.map_map]
  rfl

/-- Adjacency membership from an edge: when `a` is a node id and some
edge joins `a` and `b` (in either direction), `b` ends up in `a`'s
neighbor set. -/
theorem mem_adjLookup_buildAdjacency (nodes : NodeRec) (edges : List Edge)
    (a b : String) (ha : a ∈ nodes.map Prod.fst)
    (he : ∃ e ∈ edges, (e.source = a ∧ e.target = b) ∨ (e.source = b ∧ e.target = a)) :
    b ∈ adjLookup (buildAdjacency nodes edges) a := by
  unfold buildAdjacency
  have hinit : a ∈ (nodes.map (fun p => (p.1, ([] : List String)))).map Prod.fst := by
    rw [List.map_map]
    exact ha
  have hfold : ∀ (es : List Edge) (m : Adjacency), a ∈ m.map Prod.fst →
      ((∃ e ∈ es, (e.source = a ∧ e.target = b) ∨ (e.source = b ∧ e.target = a)) ∨
        b ∈ adjLookup m a) →
      b ∈ adjLookup
        (es.foldl
          (fun m e => addNeighbor (addNeighbor m e.source e.target) e.target e.source)
          m) a := by
    intro es
    induction es with
    | nil =>
      intro m _ h
      rcases h with ⟨e, he', _⟩ | h
      · simp at he'
      · exact h
    | cons e es ih =>
      intro m hm h
      rw [List.foldl_cons]
      apply ih
      · rw [addNeighbor_keys, addNeighbor_keys]; exact hm
      · rcases h with ⟨e', he', hcase⟩ | hmem
        · rcases List.mem_cons.mp he' with rfl | he''
          · right
            rcases hcase with ⟨hs, ht⟩ | ⟨hs, ht⟩
            · rw [hs, ht]
              exact adjLookup_addNeighbor_mono _ _ _ _ _
                (adjLookup_addNeighbor_self m a b hm)
            · rw [hs, ht]
              apply adjLookup_addNeighbor_self
              rw [addNeighbor_keys]
              exact hm
          · exact Or.inl ⟨e', he'', hcase⟩
        · right
          exact adjLookup_addNeighbor_mono _ _ _ _ _
            (adjLookup_addNeighbor_mono _ _ _ _ _ hmem)
  exact hfold edges _ hinit (Or.inl he)

/-- Neighbor-set lookup in a map whose entries are all empty. -/
theorem adjLookup_all_nil (m : Adjacency)
    (h : ∀ p ∈ m, p.2 = ([] : List String)) (v : String) : adjLookup m v = [] := by
  unfold adjLookup
  rcases hf : m.find? (fun p => p.1 = v) with _ | p
  · rw [hf]; rfl
  · have hp : p ∈ m := List.mem_of_find?_eq_some hf
    rw [hf]
    simp [h p hp]

/-- A traversal from a node with no recorded neighbors just marks it. -/
theorem dfs_of_no_neighbors (adj : Adjacency) (v : String)
    (h : adjLookup adj v = []) (n : ℕ) (vis : List String) :
    dfs adj (n + 1) v vis = v :: vis := by
  simp [dfs, h]

/-- Cluster loop over fresh, pairwise-distinct keys with an all-empty
adjacency: every key launches its own traversal, so the counter advances
by the number of keys. -/
theorem clusterLoop_all_isolated (adj : Adjacency) (fuel : ℕ) (hf : 1 ≤ fuel)
    (hadj : ∀ v, adjLookup adj v = []) :
    ∀ (keys : List String) (vis : List String) (c : ℕ), keys.Nodup →
      (∀ k ∈ keys, k ∉ vis) →
      (keys.foldl
        (fun st id => if id ∈ st.1 then st else (dfs adj fuel id st.1, st.2 + 1))
        (vis, c)).2 = c + keys.length := by
  intro keys
  induction keys with
  | nil => intro vis c _ _; simp
  | cons k rest ih =>
    intro vis c hnd hdisj
    rw [List.foldl_cons]
    have hk : k ∉ vis := hdisj k (List.mem_cons_self k rest)
    rw [if_neg hk]
    obtain ⟨n, rfl⟩ : ∃ n, fuel = n + 1 := ⟨fuel - 1, by omega⟩
    rw [dfs_of_no_neighbors adj k (hadj k) n vis]
    have hrest : ∀ k' ∈ rest, k' ∉ (k :: vis) := by
      intro k' hk' hmem
      rcases List.mem_cons.mp hmem with rfl | hmem'
      · exact (List.nodup_cons.mp hnd).1 hk'
      · exact hdisj k' (List.mem_cons_of_mem _ hk') hmem'
    have := ih (k :: vis) (c + 1) (List.nodup_cons.mp hnd).2 hrest
    rw [this]
    simp [Nat.add_assoc, Nat.add_comm 1]

/-- Cluster loop over keys that are all already visited: no launch, no
counter change. -/
theorem clusterLoop_all_visited (adj : Adjacency) (fuel : ℕ) :
    ∀ (keys : List String) (vis : List String) (c : ℕ), (∀ k ∈ keys, k ∈ vis) →
      keys.foldl
        (fun st id => if id ∈ st.1 then st else (dfs adj fuel id st.1, st.2 + 1))
        (vis, c) = (vis, c) := by
  intro keys
  induction keys with
  | nil => intro vis c _; rfl
  | cons k rest ih =>
    intro vis c h
    rw [List.foldl_cons, if_pos (h k (List.mem_cons_self k rest))]
    exact ih vis c (fun k' hk' => h k' (List.mem_cons_of_mem _ hk'))

/-- C1: `calculateGraphStats` is a total function of the snapshot (it is
defined for every input, including the empty graph) and each ratio field
is guarded by a zero-denominator check yielding `0`: with no nodes the
average degree is `0`, with fewer than two nodes (maximum possible edge
count `0`) the density is `0`, and with no edges (no connected node in
the denominator) the average connections is `0`.  In the exact-rational
embedding every field is a well-defined rational — the NaN/Infinity
cases of unguarded JS division cannot arise. -/
theorem calculateGraphStats_ratios_guarded (nodes : NodeRec) (edges : List Edge) :
    (nodes = [] → (calculateGraphStats nodes edges).connectivity.averageDegree = 0) ∧
    (nodes.length ≤ 1 → (calculateGraphStats nodes edges).connectivity.density = 0) ∧
    (edges = [] → (calculateGraphStats nodes edges).edges.averageConnections = 0) := by
  refine ⟨?_, ?_, ?_⟩
  · rintro rfl
    simp [calculateGraphStats, calculateConnectivityStats, buildAdjacency_nil]
    norm_num [jsRound, Rat.floor]
  · intro h
    rcases nodes with _ | ⟨p, _ | ⟨q, rest⟩⟩
    · simp [calculateGraphStats, calculateConnectivityStats]
      norm_num [jsRound, Rat.floor]
    · simp [calculateGraphStats, calculateConnectivityStats]
      norm_num [jsRound, Rat.floor]
    · simp at h
  · rintro rfl
    simp [calculateGraphStats, calculateEdgeStats, connectionCount]
    norm_num [jsRound, Rat.floor]

/-- Witness for C1: the guarded ratios evaluated on the empty graph. -/
theorem calculateGraphStats_ratios_guarded_witness :
    (calculateGraphStats [] []).connectivity.averageDegree = 0 ∧
    (calculateGraphStats [] []).connectivity.density = 0 ∧
    (calculateGraphStats [] []).edges.averageConnections = 0 :=
  ⟨(calculateGraphStats_ratios_guarded [] []).1 rfl,
   (calculateGraphStats_ratios_guarded [] []).2.1 (by decide),
   (calculateGraphStats_ratios_guarded [] []).2.2 rfl⟩

/-- Presence test of a key in a counter map, as key-list membership. -/
theorem keys_any_iff [DecidableEq κ] (m : List (κ × ℕ)) (k : κ) :
    m.any (fun p => p.1 = k) = true ↔ k ∈ m.map Prod.fst := by
  rw [List.any_eq_true]
  constructor
  · rintro ⟨p, hp, hpk⟩
    exact List.mem_map.mpr ⟨p, hp, by simpa using hpk⟩
  · intro hk
    rcases List.mem_map.mp hk with ⟨p, hp, rfl⟩
    exact ⟨p, hp, by simp⟩

/-- Keys of a counter map after `bump`: unchanged when the key was
present, appended otherwise — one step of first-occurrence dedup. -/
theorem bump_keys [DecidableEq κ] (m : List (κ × ℕ)) (k : κ) :
    (bump m k).map Prod.fst = dedupStep (m.map Prod.fst) k := by
  unfold bump dedupStep
  by_cases h : k ∈ m.map Prod.fst
  · rw [if_pos ((keys_any_iff m k).mpr h), if_pos h, List.map_map]
    apply List.map_congr_left
    intro p _
    by_cases hp : p.1 = k <;> simp [hp]
  · rw [if_neg (fun hc => h ((keys_any_iff m k).mp hc)), if_neg h, List.map_append]
    rfl

/-- One dedup step keeps the accumulator duplicate-free. -/
theorem dedupStep_nodup [DecidableEq α] (acc : List α) (x : α) (h : acc.Nodup) :
    (dedupStep acc x).Nodup := by
  unfold dedupStep
  split
  · exact h
  · next hx => simp [List.nodup_append, h, hx]

/-- Incrementing an absent-entries-untouched counter map: the map update
of `bump` leaves a map without the key unchanged. -/
theorem bump_map_id [DecidableEq κ] (m : List (κ × ℕ)) (k : κ)
    (h : k ∉ m.map Prod.fst) :
    m.map (fun p => if p.1 = k then (p.1, p.2 + 1) else p) = m := by
  conv_rhs => rw [← List.map_id m]
  apply List.map_congr_left
  intro p hp
  have : p.1 ≠ k := fun hc => h (List.mem_map.mpr ⟨p, hp, hc⟩)
  simp [this]

/-- Value sum of a counter map after `bump`: exactly one more (the map's
keys are unique, so exactly one entry is incremented, or one fresh entry
with count one is appended). -/
theorem bump_sum [DecidableEq κ] (m : List (κ × ℕ)) (k : κ)
    (hnd : (m.map Prod.fst).Nodup) :
    ((bump m k).map Prod.snd).sum = ((m.map Prod.snd).sum) + 1 := by
  unfold bump
  by_cases h : k ∈ m.map Prod.fst
  · rw [if_pos ((keys_any_iff m k).mpr h)]
    induction m with
    | nil => simp at h
    | cons p rest ih =>
      rw [List.map_cons] at hnd h
      rcases List.mem_cons.mp h with hk | hk
      · have hrest : k ∉ rest.map Prod.fst := by
          rw [← hk] at hnd
          exact (List.nodup_cons.mp hnd).1
        rw [List.map_cons, if_pos hk.symm, bump_map_id rest k hrest]
        simp [Nat.add_assoc, Nat.add_comm 1]
      · have hpk : p.1 ≠ k := by
          intro hc
          exact (List.nodup_cons.mp hnd).1 (hc ▸ hk)
        rw [List.map_cons, if_neg hpk]
        have := ih (List.nodup_cons.mp hnd).2 hk
        simp only [List.map_cons, List.sum_cons] at this ⊢
        omega
  · rw [if_neg (fun hc => h ((keys_any_iff m k).mp hc)), List.map_append]
    simp

/-- Key list of the `connectionCount` map: the distinct endpoint ids of
the edge list, in first-appearance order — dangling endpoints included. -/
theorem connectionCount_keys (edges : List Edge) :
    (connectionCount edges).map Prod.fst = firstDedup (endpointStream edges) := by
  unfold connectionCount firstDedup
  have hfold : ∀ (es : List Edge) (m : List (String × ℕ)),
      ((es.foldl (fun m e => bump (bump m e.source) e.target) m).map Prod.fst)
        = (endpointStream es).foldl dedupStep (m.map Prod.fst) := by
    intro es
    induction es with
    | nil => intro m; rfl
    | cons e es ih =>
      intro m
      rw [List.foldl_cons, ih, bump_keys, bump_keys]
      rfl
  exact hfold edges []

/-- The `connectionCount` map has duplicate-free keys. -/
theorem connectionCount_keys_nodup (edges : List Edge) :
    ((connectionCount edges).map Prod.fst).Nodup := by
  rw [connectionCount_keys]
  unfold firstDedup
  have hfold : ∀ (l : List String) (acc : List String), acc.Nodup →
      (l.foldl dedupStep acc).Nodup := by
    intro l
    induction l with
    | nil => intro acc h; exact h
    | cons x xs ih => intro acc h; exact ih _ (dedupStep_nodup acc x h)
  exact hfold _ [] List.nodup_nil

/-- Value sum of the `connectionCount` map: two increments per edge. -/
theorem connectionCount_sum (edges : List Edge) :
    ((connectionCount edges).map Prod.snd).sum = 2 * edges.length := by
  unfold connectionCount
  have hfold : ∀ (es : List Edge) (m : List (String × ℕ)), (m.map Prod.fst).Nodup →
      ((es.foldl (fun m e => bump (bump m e.source) e.target) m).map Prod.snd).sum
        = (m.map Prod.snd).sum + 2 * es.length := by
    intro es
    induction es with
    | nil => intro m _; simp
    | cons e es ih =>
      intro m hm
      rw [List.foldl_cons]
      have hm1 : ((bump m e.source).map Prod.fst).Nodup := by
        rw [bump_keys]; exact dedupStep_nodup _ _ hm
      have hm2 : ((bump (bump m e.source) e.target).map Prod.fst).Nodup := by
        rw [bump_keys]; exact dedupStep_nodup _ _ hm1
      rw [ih _ hm2, bump_sum _ _ hm1, bump_sum _ _ hm]
      simp [List.length_cons]
      ring
  simpa using hfold edges [] (by simp)

/-- Accumulator length never shrinks along first-occurrence dedup. -/
theorem firstDedup_length_pos (l : List String) (h : l ≠ []) :
    0 < (firstDedup l).length := by
  unfold firstDedup
  have hmono : ∀ (xs : List String) (acc : List String),
      acc.length ≤ (xs.foldl dedupStep acc).length := by
    intro xs
    induction xs with
    | nil => intro acc; exact Nat.le_refl _
    | cons x xs ih =>
      intro acc
      refine Nat.le_trans ?_ (ih (dedupStep acc x))
      unfold dedupStep
      split
      · exact Nat.le_refl _
      · simp

  rcases l with _ | ⟨x, xs⟩
  · exact absurd rfl h
  · rw [List.foldl_cons]
    have h1 : (dedupStep ([] : List String) x).length = 1 := by
      unfold dedupStep
      simp
    calc 0 < 1 := Nat.zero_lt_one
    _ = (dedupStep ([] : List String) x).length := h1.symm
    _ ≤ _ := hmono xs _

/-- Membership is preserved by a stable ordered insertion. -/
theorem mem_orderedInsert (le : α → α → Bool) (a x : α) (l : List α) :
    x ∈ orderedInsert le a l ↔ x = a ∨ x ∈ l := by
  induction l with
  | nil => simp [orderedInsert]
  | cons b rest ih =>
    unfold orderedInsert
    split
    · simp
    · rw [List.mem_cons, ih, List.mem_cons]
      tauto

/-- The stable sort is a permutation at the level of membership. -/
theorem mem_sortBy (le : α → α → Bool) (x : α) (l : List α) :
    x ∈ sortBy le l ↔ x ∈ l := by
  induction l with
  | nil => simp [sortBy]
  | cons a rest ih =>
    unfold sortBy
    rw [mem_orderedInsert, ih, List.mem_cons]

/-- C2: the connected-component count of `calculateGraphStats` counts one
depth-first-search launch per not-yet-visited node id: with zero edges it
equals the node count, and for a nonempty graph in which every pair of
distinct nodes is joined by an edge it equals `1` (the launch from the
first node directly visits every other node). -/
theorem clusters_components (nodes : NodeRec) (edges : List Edge)
    (hnd : (nodes.map Prod.fst).Nodup) :
    (edges = [] → (calculateGraphStats nodes edges).connectivity.clusters = nodes.length) ∧
    (nodes ≠ [] →
      (∀ a ∈ nodes.map Prod.fst, ∀ b ∈ nodes.map Prod.fst, a ≠ b →
        ∃ e ∈ edges, (e.source = a ∧ e.target = b) ∨ (e.source = b ∧ e.target = a)) →
      (calculateGraphStats nodes edges).connectivity.clusters = 1) := by
  constructor
  · rintro rfl
    show (clusterLoop (buildAdjacency nodes []) (dfsFuel nodes []) (nodes.map Prod.fst)).2
      = nodes.length
    have hadj : ∀ v, adjLookup (buildAdjacency nodes []) v = [] := by
      intro v
      apply adjLookup_all_nil
      intro p hp
      have hb : buildAdjacency nodes [] = nodes.map (fun p => (p.1, ([] : List String))) := rfl
      rw [hb] at hp
      rcases List.mem_map.mp hp with ⟨q, _, rfl⟩
      rfl
    unfold clusterLoop
    rw [clusterLoop_all_isolated (buildAdjacency nodes []) (dfsFuel nodes [])
      (by unfold dfsFuel; omega) hadj (nodes.map Prod.fst) [] 0 hnd
      (by intro k _ hk; exact List.not_mem_nil k hk)]
    simp
  · intro hne hfc
    show (clusterLoop (buildAdjacency nodes edges) (dfsFuel nodes edges) (nodes.map Prod.fst)).2
      = 1
    obtain ⟨n, hn1, hfuel⟩ : ∃ n, 1 ≤ n ∧ dfsFuel nodes edges = n + 1 := by
      refine ⟨nodes.length + 2 * edges.length, ?_, rfl⟩
      have := List.length_pos.mpr hne
      omega
    rcases hk : nodes.map Prod.fst with _ | ⟨k0, krest⟩
    · exact absurd (List.map_eq_nil_iff.mp hk) hne
    unfold clusterLoop
    rw [List.foldl_cons, if_neg (List.not_mem_nil k0)]
    have hvisit : ∀ k ∈ krest,
        k ∈ dfs (buildAdjacency nodes edges) (dfsFuel nodes edges) k0 [] := by
      intro k hkr
      have hk0mem : k0 ∈ nodes.map Prod.fst := by
        rw [hk]; exact List.mem_cons_self _ _
      have hkmem : k ∈ nodes.map Prod.fst := by
        rw [hk]; exact List.mem_cons_of_mem _ hkr
      have hne' : k0 ≠ k := by
        have hnd' := hnd
        rw [hk] at hnd'
        intro hEq
        exact (List.nodup_cons.mp hnd').1 (hEq ▸ hkr)
      have hedge := hfc k0 hk0mem k hkmem hne'
      have hadj := mem_adjLookup_buildAdjacency nodes edges k0 k hk0mem hedge
      rw [hfuel]
      exact dfs_mem_adj _ n hn1 k0 [] k hadj
    rw [clusterLoop_all_visited _ _ krest _ 1 hvisit]

/-- Witness for C2: a two-node graph with no edges has two clusters; the
same two nodes joined by an edge form one cluster. -/
theorem clusters_components_witness :
    (calculateGraphStats
      [("a", Node.mk "A" "book" none none none none),
       ("b", Node.mk "B" "author" none none none none)] []).connectivity.clusters = 2 ∧
    (calculateGraphStats
      [("a", Node.mk "A" "book" none none none none),
       ("b", Node.mk "B" "author" none none none none)]
      [Edge.mk "a" "b"]).connectivity.clusters = 1 :=
  ⟨(clusters_components
      [("a", Node.mk "A" "book" none none none none),
       ("b", Node.mk "B" "author" none none none none)] [] (by decide)).1 rfl,
   (clusters_components
      [("a", Node.mk "A" "book" none none none none),
       ("b", Node.mk "B" "author" none none none none)]
      [Edge.mk "a" "b"] (by decide)).2 (by decide) (by decide)⟩

/-- C3 (counterexample): on the snapshot with the single node `a` and the
dangling edge `a → ghost`, the missing id `ghost` does appear in the
per-node connection ranking, the present endpoint's degree includes the
missing neighbor (average degree `1`, not `0`), and `a` is not counted
isolated — contradicting the claim that a dangling edge is excluded from
degree and connectivity counting. -/
theorem dangling_edge_counted_counterexample :
    ("ghost" ∈ ((calculateGraphStats [("a", Node.mk "A" "book" none none none none)]
        [Edge.mk "a" "ghost"]).edges.mostConnected.map ConnEntry.nodeId)) ∧
    (calculateGraphStats [("a", Node.mk "A" "book" none none none none)]
        [Edge.mk "a" "ghost"]).connectivity.averageDegree = 1 ∧
    (calculateGraphStats [("a", Node.mk "A" "book" none none none none)]
        [Edge.mk "a" "ghost"]).connectivity.isolatedNodes = 0 := by
  refine ⟨by decide, ?_, by decide⟩
  norm_num +decide [calculateGraphStats, calculateConnectivityStats, buildAdjacency,
    addNeighbor, jsRound, Rat.floor]

/-- C3 (amended): the analytics engine never raises on a dangling edge
(the embedding is total), but the dangling edge is not excluded from
degree and connection counting: every endpoint id — present or missing —
receives a `connectionCount` entry (so missing ids can appear in
`mostConnected`/`leastConnected` and enlarge the `averageConnections`
denominator), while only genuine node ids ever get an adjacency entry of
their own (so a missing endpoint never launches a DFS and adds no
cluster, and `isolatedNodes`/`averageDegree` are computed over node
entries only — with the missing id still counted inside its present
neighbor's set). -/
theorem dangling_edge_handling_amended (nodes : NodeRec) (edges : List Edge) :
    ((buildAdjacency nodes edges).map Prod.fst = nodes.map Prod.fst) ∧
    ((connectionCount edges).map Prod.fst = firstDedup (endpointStream edges)) ∧
    (∀ entry ∈ (calculateGraphStats nodes edges).edges.mostConnected,
      entry.nodeId ∈ firstDedup (endpointStream edges)) := by
  refine ⟨buildAdjacency_keys nodes edges, connectionCount_keys edges, ?_⟩
  intro entry hentry
  have h1 : entry ∈ nodeConnections nodes edges :=
    List.take_subset 5 _ hentry
  rw [nodeConnections, mem_sortBy] at h1
  rcases List.mem_map.mp h1 with ⟨p, hp, rfl⟩
  rw [← connectionCount_keys]
  exact List.mem_map.mpr ⟨p, hp, rfl⟩

/-- C7 (counterexample): for the three-node snapshot `a, b, c` with edges
`a-b` and `a-c`, total connection increments are `4` over `3` distinct
connected ids, but `averageConnections` is the rounded `1.3`, not `4/3` —
the claimed exact quotient does not hold. -/
theorem averageConnections_counterexample :
    (calculateGraphStats
      [("a", Node.mk "A" "book" none none none none),
       ("b", Node.mk "B" "author" none none none none),
       ("c", Node.mk "C" "theme" none none none none)]
      [Edge.mk "a" "b", Edge.mk "a" "c"]).edges.averageConnections = 13/10 ∧
    (((connectionCount [Edge.mk "a" "b", Edge.mk "a" "c"]).map Prod.snd).sum = 4) ∧
    ((connectionCount [Edge.mk "a" "b", Edge.mk "a" "c"]).length = 3) ∧
    ((13 : ℚ)/10 ≠ (4 : ℚ)/3) := by
  refine ⟨?_, by decide, by decide, by norm_num⟩
  norm_num +decide [calculateGraphStats, calculateEdgeStats, connectionCount, bump,
    jsRound, Rat.floor]

/-- C7 (amended): `averageConnections` equals the total number of
connection increments (twice the edge count) divided by the number of
distinct ids appearing as an edge endpoint, **rounded to one decimal**
(`Math.round(x * 10) / 10`), and `0` when there are no edges (no
connected node in the denominator). -/
theorem averageConnections_rounded_formula (nodes : NodeRec) (edges : List Edge) :
    (calculateGraphStats nodes edges).edges.averageConnections =
      if edges = [] then 0
      else (jsRound ((2 * edges.length : ℚ) /
              ((firstDedup (endpointStream edges)).length : ℚ) * 10) : ℚ) / 10 := by
  show (jsRound ((if 0 < (connectionCount edges).length
      then (((connectionCount edges).map Prod.snd).sum : ℚ) / ((connectionCount edges).length : ℚ)
      else 0) * 10) : ℚ) / 10 = _
  by_cases he : edges = []
  · subst he
    rw [if_pos rfl]
    norm_num [connectionCount, jsRound, Rat.floor]
  · rw [if_neg he]
    have hlen : (connectionCount edges).length = (firstDedup (endpointStream edges)).length := by
      rw [← connectionCount_keys, List.length_map]
    have hpos : 0 < (connectionCount edges).length := by
      rw [hlen]
      apply firstDedup_length_pos
      rcases edges with _ | ⟨e, es⟩
      · exact absurd rfl he
      · simp [endpointStream]
    rw [if_pos hpos, connectionCount_sum, hlen]
    push_cast
    ring_nf


/-- Digit characters parse back to their digit value. -/
theorem charToDigit_digitChar (d : ℕ) (h : d < 10) :
    charToDigit (digitChar d) = some d := by
  interval_cases d <;> decide

/-- Every rendered digit character parses as a digit. -/
theorem charToDigit_digitChar_isSome (d : ℕ) :
    (charToDigit (digitChar d)).isSome = true := by
  unfold digitChar
  repeat' split
  all_goals decide

/-- A rendered digit character is never a newline. -/
theorem digitChar_ne_nl (d : ℕ) : digitChar d ≠ '\n' := by
  unfold digitChar
  repeat' split
  all_goals decide

/-- All decimal digits of a natural number are below ten. -/
theorem natDigitsRev_lt (n : ℕ) : ∀ d ∈ natDigitsRev n, d < 10 := by
  induction n using Nat.strong_induction_on with
  | _ n ih =>
    unfold natDigitsRev
    split
    · intro d hd
      rw [List.mem_singleton] at hd
      omega
    · intro d hd
      rcases List.mem_cons.mp hd with rfl | hd'
      · exact Nat.mod_lt _ (by omega)
      · exact ih (n / 10) (Nat.div_lt_self (by omega) (by omega)) d hd'

/-- The digit list of a natural number is never empty. -/
theorem natDigitsRev_ne_nil (n : ℕ) : natDigitsRev n ≠ [] := by
  unfold natDigitsRev
  split <;> simp

/-- Least-significant-first Horner evaluation recovers the number. -/
theorem natDigitsRev_foldr (n : ℕ) :
    (natDigitsRev n).foldr (fun d acc => d + 10 * acc) 0 = n := by
  induction n using Nat.strong_induction_on with
  | _ n ih =>
    unfold natDigitsRev
    split
    · simp
    · rw [List.foldr_cons, ih (n / 10) (Nat.div_lt_self (by omega) (by omega))]
      omega

/-- Most-significant-first Horner evaluation over the reversed digit list. -/
theorem foldl_reverse_horner (ds : List ℕ) (a : ℕ) :
    ds.reverse.foldl (fun acc d => acc * 10 + d) a
      = a * 10 ^ ds.length + ds.foldr (fun d acc => d + 10 * acc) 0 := by
  induction ds generalizing a with
  | nil => simp
  | cons d ds ih =>
    rw [List.reverse_cons, List.foldl_append, ih]
    simp [List.foldr_cons, Nat.pow_succ]
    ring

/-- Fold functions that agree on the list members fold alike. -/
theorem foldl_congr_mem {α β : Type} {f g : β → α → β} (l : List α)
    (h : ∀ b : β, ∀ x ∈ l, f b x = g b x) : ∀ b, l.foldl f b = l.foldl g b := by
  induction l with
  | nil => intro b; rfl
  | cons x xs ih =>
    intro b
    rw [List.foldl_cons, List.foldl_cons, h b x (List.mem_cons_self x xs)]
    exact ih (fun b y hy => h b y (List.mem_cons_of_mem _ hy)) _

/-- Round trip: parsing the decimal rendering of a natural number. -/
theorem digitsToNat_natToChars (n : ℕ) : digitsToNat (natToChars n) = some n := by
  unfold digitsToNat
  have hne : natToChars n ≠ [] := by
    unfold natToChars
    simp [natDigitsRev_ne_nil]
  rw [if_neg hne]
  have hall : (natToChars n).all (fun c => (charToDigit c).isSome) = true := by
    rw [List.all_eq_true]
    intro c hc
    rcases List.mem_map.mp hc with ⟨d, _, rfl⟩
    exact charToDigit_digitChar_isSome d
  rw [if_pos hall]
  congr 1
  unfold natToChars
  rw [List.foldl_map]
  rw [foldl_congr_mem ((natDigitsRev n).reverse)
    (g := fun acc d => acc * 10 + d) ?hcong 0]
  case hcong =>
    intro b d hd
    rw [List.mem_reverse] at hd
    rw [charToDigit_digitChar d (natDigitsRev_lt n d hd)]
    rfl
  rw [foldl_reverse_horner, natDigitsRev_foldr]
  simp

/-- Rendered natural numbers contain no newline. -/
theorem nl_not_mem_natToChars (n : ℕ) : '\n' ∉ natToChars n := by
  intro hc
  rcases List.mem_map.mp hc with ⟨d, _, hd⟩
  exact digitChar_ne_nl d hd

/-- Rendered integers contain no newline. -/
theorem nl_not_mem_intToChars (z : ℤ) : '\n' ∉ intToChars z := by
  unfold intToChars
  split
  · intro hc
    rcases List.mem_cons.mp hc with h | h
    · exact absurd h.symm (by decide)
    · exact nl_not_mem_natToChars _ h
  · exact nl_not_mem_natToChars _

/-- Rendered rationals contain no newline. -/
theorem nl_not_mem_qToChars (q : ℚ) : '\n' ∉ qToChars q := by
  unfold qToChars
  intro hc
  rcases List.mem_append.mp hc with h | h
  · exact nl_not_mem_intToChars _ h
  · revert h
    split
    · simp
    · intro h
      rcases List.mem_cons.mp h with h' | h'
      · exact absurd h'.symm (by decide)
      · exact nl_not_mem_natToChars _ h'

/-- Rendered optional years contain no newline. -/
theorem nl_not_mem_optIntToChars (z : Option ℤ) : '\n' ∉ optIntToChars z := by
  rcases z with _ | z
  · decide
  · exact nl_not_mem_intToChars z


/-- Splitting never yields an empty row list. -/
theorem splitOnChar_ne_nil (sep : Char) (l : List Char) :
    splitOnChar sep l ≠ [] := by
  induction l with
  | nil => simp [splitOnChar]
  | cons c cs ih =>
    unfold splitOnChar
    rcases h : splitOnChar sep cs with _ | ⟨r, rs⟩
    · exact absurd h ih
    · show (if c = sep then [] :: r :: rs else (c :: r) :: rs) ≠ []
      split <;> simp

/-- A separator-free text splits into a single row. -/
theorem splitOnChar_of_not_mem (sep : Char) (l : List Char) (h : sep ∉ l) :
    splitOnChar sep l = [l] := by
  induction l with
  | nil => rfl
  | cons c cs ih =>
    have hc : ¬(c = sep) := fun hcc => h (hcc ▸ List.mem_cons_self c cs)
    have hcs : sep ∉ cs := fun hm => h (List.mem_cons_of_mem _ hm)
    unfold splitOnChar
    rw [ih hcs]
    simp [hc]

/-- Splitting after a separator-free first row peels it off. -/
theorem splitOnChar_append (sep : Char) (l rest : List Char) (h : sep ∉ l) :
    splitOnChar sep (l ++ sep :: rest) = l :: splitOnChar sep rest := by
  induction l with
  | nil =>
    show splitOnChar sep (sep :: rest) = [] :: splitOnChar sep rest
    conv_lhs => rw [splitOnChar]
    rcases hr : splitOnChar sep rest with _ | ⟨r, rs⟩
    · exact absurd hr (splitOnChar_ne_nil sep rest)
    · show (if sep = sep then [] :: r :: rs else (sep :: r) :: rs) = [] :: r :: rs
      simp
  | cons c l' ih =>
    have hc : ¬(c = sep) := fun hcc => h (hcc ▸ List.mem_cons_self c l')
    have hl' : sep ∉ l' := fun hm => h (List.mem_cons_of_mem _ hm)
    show splitOnChar sep (c :: (l' ++ sep :: rest)) = (c :: l') :: splitOnChar sep rest
    conv_lhs => rw [splitOnChar]
    rw [ih hl']
    simp [hc]

/-- Splitting a joined line list on the separator recovers the lines,
provided no line contains the separator. -/
theorem splitOnChar_joinLines (sep : Char) (ls : List (List Char)) (hne : ls ≠ [])
    (h : ∀ l ∈ ls, sep ∉ l) : splitOnChar sep (joinLines sep ls) = ls := by
  induction ls with
  | nil => exact absurd rfl hne
  | cons l ls ih =>
    rcases ls with _ | ⟨l2, rest⟩
    · show splitOnChar sep (joinLines sep [l]) = [l]
      exact splitOnChar_of_not_mem sep l (h l (List.mem_cons_self _ _))
    · show splitOnChar sep (l ++ sep :: joinLines sep (l2 :: rest)) = l :: l2 :: rest
      rw [splitOnChar_append sep l _ (h l (List.mem_cons_self _ _))]
      rw [ih (by simp) (fun x hx => h x (List.mem_cons_of_mem _ hx))]

/-- Key of a `key,value` row with a comma-free key: the key itself,
regardless of the value text. -/
theorem csvKey_fixed (k v : List Char) (hk : ',' ∉ k) :
    csvKey ((k ++ [',']) ++ v) = k := by
  unfold csvKey
  induction k with
  | nil => simp [List.takeWhile_cons]
  | cons c k' ih =>
    have hc : ¬(c = ',') := fun hcc => hk (hcc ▸ List.mem_cons_self c k')
    have hk' : ',' ∉ k' := fun hm => hk (List.mem_cons_of_mem _ hm)
    rw [List.cons_append, List.cons_append, List.takeWhile_cons]
    rw [show (!decide (c = ',')) = true by simp [hc]]
    simp only [if_true]
    exact congrArg (c :: ·) (ih hk')

/-- Value of a `key,value` row with a comma-free key: the value text. -/
theorem csvValue_fixed (k v : List Char) (hk : ',' ∉ k) :
    csvValue ((k ++ [',']) ++ v) = v := by
  unfold csvValue
  induction k with
  | nil => simp [List.dropWhile_cons]
  | cons c k' ih =>
    have hc : ¬(c = ',') := fun hcc => hk (hcc ▸ List.mem_cons_self c k')
    have hk' : ',' ∉ k' := fun hm => hk (List.mem_cons_of_mem _ hm)
    rw [List.cons_append, List.cons_append, List.dropWhile_cons]
    rw [show (!decide (c = ',')) = true by simp [hc]]
    simp only [if_true]
    exact ih hk'

/-- A match found in the first part of an appended list is the match of
the whole list. -/
theorem find?_append_some {α : Type} (p : α → Bool) (l1 l2 : List α) (a : α)
    (h : l1.find? p = some a) : (l1 ++ l2).find? p = some a := by
  induction l1 with
  | nil => simp at h
  | cons x l1' ih =>
    rw [List.cons_append]
    rcases hpx : p x with _ | _
    · rw [List.find?_cons_of_neg _ (by simp [hpx])]
      rw [List.find?_cons_of_neg _ (by simp [hpx])] at h
      exact ih h
    · rw [List.find?_cons_of_pos _ hpx]
      rw [List.find?_cons_of_pos _ hpx] at h
      exact h


/-- Newline-freedom of appended texts. -/
theorem nl_not_mem_append {a : Char} {l1 l2 : List Char} (h1 : a ∉ l1)
    (h2 : a ∉ l2) : a ∉ l1 ++ l2 := by
  intro hc
  rcases List.mem_append.mp hc with h | h
  · exact h1 h
  · exact h2 h

/-- No line pushed by `exportStatsAsCSV` contains a newline. -/
theorem csvLines_nl_free (stats : GraphStats) :
    ∀ l ∈ csvLines stats, '\n' ∉ l := by
  unfold csvLines
  intro l hl
  rcases List.mem_append.mp hl with h | h
  · fin_cases h <;>
      first
      | decide
      | exact nl_not_mem_append (by decide) (nl_not_mem_natToChars _)
      | exact nl_not_mem_append (by decide) (nl_not_mem_qToChars _)
  · split at h
    · fin_cases h <;>
        first
        | decide
        | exact nl_not_mem_append (by decide) (nl_not_mem_intToChars _)
        | exact nl_not_mem_append (by decide) (nl_not_mem_optIntToChars _)
        | exact nl_not_mem_append
            (nl_not_mem_append (by decide) (nl_not_mem_intToChars _)) (by decide)
    · simp at h

/-- C9: re-parsing the CSV text produced by `exportStatsAsCSV` for the
`Total Nodes` and `Total Edges` rows recovers exactly `stats.nodes.total`
and `stats.edges.total`. -/
theorem exportStatsAsCSV_roundTrip (stats : GraphStats) :
    csvLookupNat (exportStatsAsCSV stats) ("Total Nodes".data) = some stats.nodes.total ∧
    csvLookupNat (exportStatsAsCSV stats) ("Total Edges".data) = some stats.edges.total := by
  have hsplit : splitOnChar '\n' (exportStatsAsCSV stats) = csvLines stats := by
    unfold exportStatsAsCSV
    apply splitOnChar_joinLines
    · unfold csvLines
      simp
    · exact csvLines_nl_free stats
  have hTN : "Total Nodes,".data = "Total Nodes".data ++ [','] := by decide
  have hTE : "Total Edges,".data = "Total Edges".data ++ [','] := by decide
  have hBooks : "Books,".data = "Books".data ++ [','] := by decide
  have hAuthors : "Authors,".data = "Authors".data ++ [','] := by decide
  have hThemes : "Themes,".data = "Themes".data ++ [','] := by decide
  have hWith : "With Images,".data = "With Images".data ++ [','] := by decide
  constructor
  · unfold csvLookupNat
    rw [hsplit]
    have hfind : (csvLines stats).find?
        (fun line => decide (csvKey line = "Total Nodes".data))
        = some ("Total Nodes,".data ++ natToChars stats.nodes.total) := by
      unfold csvLines
      apply find?_append_some
      rw [List.find?_cons_of_neg _ (by decide)]
      rw [List.find?_cons_of_neg _ (by decide)]
      rw [List.find?_cons_of_neg _ (by decide)]
      rw [List.find?_cons_of_pos _ (by
        show decide (csvKey ("Total Nodes,".data ++ natToChars stats.nodes.total)
          = "Total Nodes".data) = true
        rw [hTN, csvKey_fixed _ _ (by decide)]
        simp)]
    rw [hfind]
    show digitsToNat (csvValue ("Total Nodes,".data ++ natToChars stats.nodes.total))
      = some stats.nodes.total
    rw [hTN, csvValue_fixed _ _ (by decide), digitsToNat_natToChars]
  · unfold csvLookupNat
    rw [hsplit]
    have hfind : (csvLines stats).find?
        (fun line => decide (csvKey line = "Total Edges".data))
        = some ("Total Edges,".data ++ natToChars stats.edges.total) := by
      unfold csvLines
      apply find?_append_some
      rw [List.find?_cons_of_neg _ (by decide)]
      rw [List.find?_cons_of_neg _ (by decide)]
      rw [List.find?_cons_of_neg _ (by decide)]
      rw [List.find?_cons_of_neg _ (by
        show ¬decide (csvKey ("Total Nodes,".data ++ natToChars stats.nodes.total)
          = "Total Edges".data) = true
        rw [hTN, csvKey_fixed _ _ (by decide)]
        decide)]
      rw [List.find?_cons_of_neg _ (by
        show ¬decide (csvKey ("Books,".data ++ natToChars stats.nodes.byTypeBook)
          = "Total Edges".data) = true
        rw [hBooks, csvKey_fixed _ _ (by decide)]
        decide)]
      rw [List.find?_cons_of_neg _ (by
        show ¬decide (csvKey ("Authors,".data ++ natToChars stats.nodes.byTypeAuthor)
          = "Total Edges".data) = true
        rw [hAuthors, csvKey_fixed _ _ (by decide)]
        decide)]
      rw [List.find?_cons_of_neg _ (by
        show ¬decide (csvKey ("Themes,".data ++ natToChars stats.nodes.byTypeTheme)
          = "Total Edges".data) = true
        rw [hThemes, csvKey_fixed _ _ (by decide)]
        decide)]
      rw [List.find?_cons_of_neg _ (by
        show ¬decide (csvKey ("With Images,".data ++ natToChars stats.nodes.withImages)
          = "Total Edges".data) = true
        rw [hWith, csvKey_fixed _ _ (by decide)]
        decide)]
      rw [List.find?_cons_of_neg _ (by decide)]
      rw [List.find?_cons_of_neg _ (by decide)]
      rw [List.find?_cons_of_pos _ (by
        show decide (csvKey ("Total Edges,".data ++ natToChars stats.edges.total)
          = "Total Edges".data) = true
        rw [hTE, csvKey_fixed _ _ (by decide)]
        simp)]
    rw [hfind]
    show digitsToNat (csvValue ("Total Edges,".data ++ natToChars stats.edges.total))
      = some stats.edges.total
    rw [hTE, csvValue_fixed _ _ (by decide), digitsToNat_natToChars]


/-- Entries of a counter map after `setKey`: an old entry or the freshly
set pair. -/
theorem mem_setKey [DecidableEq κ] (p : κ × ℕ) (m : List (κ × ℕ)) (k : κ) (v : ℕ)
    (hp : p ∈ setKey m k v) : p ∈ m ∨ p = (k, v) := by
  unfold setKey at hp
  split at hp
  · rcases List.mem_map.mp hp with ⟨q, hq, rfl⟩
    by_cases hqk : q.1 = k
    · right
      simp [hqk]
    · left
      simpa [hqk] using hq
  · rcases List.mem_append.mp hp with h | h
    · exact Or.inl h
    · exact Or.inr (List.mem_singleton.mp h)

/-- Invariant of the label-keyed aggregation folds of
`calculateContentStats`: every map entry is a pair `(label, f label)`
stemming from one of the folded nodes (or from the initial map). -/
theorem foldl_setKey_invariant {P : String × ℕ → Prop} (f : String → ℕ)
    (xs : List Analytics.Node) (hx : ∀ n ∈ xs, P (n.label, f n.label)) :
    ∀ (m : List (String × ℕ)), (∀ p ∈ m, P p) →
      ∀ p ∈ xs.foldl (fun m n => setKey m n.label (f n.label)) m, P p := by
  induction xs with
  | nil => intro m hm p hp; exact hm p hp
  | cons n xs ih =>
    intro m hm p hp
    rw [List.foldl_cons] at hp
    refine ih (fun n' hn' => hx n' (List.mem_cons_of_mem _ hn')) _ ?_ p hp
    intro q hq
    rcases mem_setKey q m n.label (f n.label) hq with h | rfl
    · exact hm q h
    · exact hx n (List.mem_cons_self _ _)

/-- C10: the content statistics match edge endpoints against node labels,
not node ids: every entry of `topThemes` pairs the label of some
theme-typed node with the number of edges whose `source` or `target`
string equals that label, and every entry of `topAuthors` pairs the label
of some author-typed node with its label-matched book-edge count; an edge
whose endpoint strings differ from the label contributes nothing (edges
matching neither endpoint leave the count unchanged). -/
theorem contentStats_label_matching (nodeList : List Node) (edges : List Edge) :
    (∀ p ∈ (calculateContentStats nodeList edges).topThemes,
        p.2 = edgeCountByLabel edges p.1 ∧
        ∃ n ∈ nodeList, n.type = "theme" ∧ n.label = p.1) ∧
    (∀ p ∈ (calculateContentStats nodeList edges).topAuthors,
        p.2 = authorBookCount nodeList edges p.1 ∧
        ∃ n ∈ nodeList, n.type = "author" ∧ n.label = p.1) ∧
    (∀ (e : Edge) (rest : List Edge) (label : String),
        e.source ≠ label → e.target ≠ label →
        edgeCountByLabel (e :: rest) label = edgeCountByLabel rest label) := by
  refine ⟨?_, ?_, ?_⟩
  · intro p hp
    have hp' : p ∈ sortBy (fun a b => decide (b.2 ≤ a.2))
        ((nodeList.filter (fun n => n.type = "theme")).foldl
          (fun m n => setKey m n.label (edgeCountByLabel edges n.label)) []) :=
      List.take_subset 10 _ hp
    rw [mem_sortBy] at hp'
    have hx : ∀ n ∈ nodeList.filter (fun n => n.type = "theme"),
        edgeCountByLabel edges n.label = edgeCountByLabel edges n.label ∧
        ∃ n' ∈ nodeList, n'.type = "theme" ∧ n'.label = n.label := by
      intro n hn
      rcases List.mem_filter.mp hn with ⟨hmem, htype⟩
      exact ⟨rfl, n, hmem, by simpa using htype, rfl⟩
    exact @foldl_setKey_invariant
      (fun q => q.2 = edgeCountByLabel edges q.1 ∧
        ∃ n' ∈ nodeList, n'.type = "theme" ∧ n'.label = q.1)
      (edgeCountByLabel edges) _ hx [] (by simp) p hp' 
  · intro p hp
    have hp' : p ∈ sortBy (fun a b => decide (b.2 ≤ a.2))
        ((nodeList.filter (fun n => n.type = "author")).foldl
          (fun m n => setKey m n.label (authorBookCount nodeList edges n.label)) []) :=
      List.take_subset 10 _ hp
    rw [mem_sortBy] at hp'
    have hx : ∀ n ∈ nodeList.filter (fun n => n.type = "author"),
        authorBookCount nodeList edges n.label = authorBookCount nodeList edges n.label ∧
        ∃ n' ∈ nodeList, n'.type = "author" ∧ n'.label = n.label := by
      intro n hn
      rcases List.mem_filter.mp hn with ⟨hmem, htype⟩
      exact ⟨rfl, n, hmem, by simpa using htype, rfl⟩
    exact @foldl_setKey_invariant
      (fun q => q.2 = authorBookCount nodeList edges q.1 ∧
        ∃ n' ∈ nodeList, n'.type = "author" ∧ n'.label = q.1)
      (authorBookCount nodeList edges) _ hx [] (by simp) p hp' 
  · intro e rest label hs ht
    unfold edgeCountByLabel
    rw [List.filter_cons]
    rw [show (e.source = label || e.target = label) = false by simp [hs, ht]]
    simp

/-- Witness for C10: the theme node labelled `C` with one edge whose
source string is that label. -/
theorem contentStats_label_matching_witness :
    ((("C", 1) : String × ℕ).2
        = edgeCountByLabel [Edge.mk "C" "x"] (("C", 1) : String × ℕ).1 ∧
      ∃ n ∈ [Node.mk "C" "theme" none none none none],
        n.type = "theme" ∧ n.label = (("C", 1) : String × ℕ).1) :=
  (contentStats_label_matching [Node.mk "C" "theme" none none none none]
    [Edge.mk "C" "x"]).1 ("C", 1) (by decide)

end Analytics

namespace Filters

open Analytics (Node)

/-- Disabled criteria always pass. -/
theorem applyCriterion_disabled (node : Node) (c : FilterCriteria)
    (h : c.enabled = false) : applyCriterion node c = true := by
  simp [applyCriterion, h]

/-- C4: filtering composes enabled criteria with AND semantics: a record
entry survives `filterNodes` iff it was present and its node passes every
enabled criterion; a disabled criterion always passes; the empty criteria
list and an all-disabled criteria list return the node record unchanged. -/
theorem filterNodes_and_semantics (nodes : Analytics.NodeRec)
    (criteria : List FilterCriteria) :
    (∀ (id : String) (node : Node), (id, node) ∈ filterNodes nodes criteria ↔
      ((id, node) ∈ nodes ∧
        ∀ c ∈ criteria, c.enabled = true → applyCriterion node c = true)) ∧
    (∀ (node : Node) (c : FilterCriteria), c.enabled = false →
      applyCriterion node c = true) ∧
    (filterNodes nodes [] = nodes) ∧
    ((∀ c ∈ criteria, c.enabled = false) → filterNodes nodes criteria = nodes) := by
  have hall : ∀ (node : Node), applyFilters node criteria = true ↔
      (∀ c ∈ criteria, c.enabled = true → applyCriterion node c = true) := by
    intro node
    unfold applyFilters
    rw [List.all_eq_true]
    constructor
    · intro h c hc _
      exact h c hc
    · intro h c hc
      by_cases he : c.enabled = true
      · exact h c hc he
      · exact applyCriterion_disabled node c (by simpa using he)
  refine ⟨?_, ?_, ?_, ?_⟩
  · intro id node
    unfold filterNodes
    rw [List.mem_filter]
    exact and_congr_right (fun _ => hall node)
  · exact fun node c => applyCriterion_disabled node c
  · unfold filterNodes
    apply List.filter_eq_self.mpr
    intro p _
    rfl
  · intro hdis
    unfold filterNodes
    apply List.filter_eq_self.mpr
    intro p _
    exact (hall p.2).mpr
      (fun c hc he => absurd (hdis c hc) (by simp [he]))

/-- Witness for C4: a disabled node-type criterion passes a book node and
leaves a one-entry record unchanged. -/
theorem filterNodes_and_semantics_witness :
    applyCriterion (Node.mk "A" "book" none none none none)
      (FilterCriteria.mk "c1" "Types" false (FilterConfig.nodeType false false false))
      = true ∧
    filterNodes [("a", Node.mk "A" "book" none none none none)]
      [FilterCriteria.mk "c1" "Types" false (FilterConfig.nodeType false false false)]
      = [("a", Node.mk "A" "book" none none none none)] :=
  ⟨(filterNodes_and_semantics [("a", Node.mk "A" "book" none none none none)]
      [FilterCriteria.mk "c1" "Types" false (FilterConfig.nodeType false false false)]).2.1
      (Node.mk "A" "book" none none none none)
      (FilterCriteria.mk "c1" "Types" false (FilterConfig.nodeType false false false)) rfl,
   (filterNodes_and_semantics [("a", Node.mk "A" "book" none none none none)]
      [FilterCriteria.mk "c1" "Types" false (FilterConfig.nodeType false false false)]).2.2.2
      (by decide)⟩

/-- C8: an enabled publication-year criterion, in any mode, evaluates to
`false` on a node lacking a publication year — the node is excluded, not
passed by default. -/
theorem yearFilter_missing_year_excluded (node : Node) (cid cname : String)
    (mode : YearMode) (minY maxY exY : Option ℤ)
    (h : node.publicationYear = none) :
    applyCriterion node
      (FilterCriteria.mk cid cname true
        (FilterConfig.publicationYear mode minY maxY exY)) = false := by
  simp [applyCriterion, h]

/-- Witness for C8: a range year-filter against a year-less book node. -/
theorem yearFilter_missing_year_excluded_witness :
    applyCriterion (Node.mk "A" "book" none none none none)
      (FilterCriteria.mk "y" "Year" true
        (FilterConfig.publicationYear YearMode.range (some 1900) (some 2000) none))
      = false :=
  yearFilter_missing_year_excluded (Node.mk "A" "book" none none none none)
    "y" "Year" YearMode.range (some 1900) (some 2000) none rfl

end Filters

namespace GraphEngine

/-- Last-write-wins for a sequence of `dragged` moves. -/
theorem foldl_dragged_last (moves : List (ℚ × ℚ)) :
    ∀ (start : GraphNode) (hm : moves ≠ []),
      (moves.foldl (fun n m => dragged n m.1 m.2) start).fx
          = some ((moves.getLast hm).1) ∧
      (moves.foldl (fun n m => dragged n m.1 m.2) start).fy
          = some ((moves.getLast hm).2) := by
  induction moves with
  | nil => intro start hm; exact absurd rfl hm
  | cons m rest ih =>
    intro start hm
    rcases rest with _ | ⟨m2, rest'⟩
    · simp [dragged]
    · rw [List.foldl_cons, List.getLast_cons (by simp)]
      exact ih _ (by simp)

/-- C6: a drag gesture `dragStarted` → `dragged*` (at least one move) →
`dragEnded` leaves the node pinned at the last `dragged` coordinates:
`fx`/`fy` equal the last move and stay non-null — `dragEnded` does not
release the pin. -/
theorem drag_pin_persists (node : GraphNode) (moves : List (ℚ × ℚ))
    (h : moves ≠ []) :
    (dragEnded true
        (moves.foldl (fun n m => dragged n m.1 m.2) (dragStarted true node))).fx
      = some ((moves.getLast h).1) ∧
    (dragEnded true
        (moves.foldl (fun n m => dragged n m.1 m.2) (dragStarted true node))).fy
      = some ((moves.getLast h).2) :=
  foldl_dragged_last moves (dragStarted true node) h

/-- Witness for C6: dragging from `(1, 2)` to `(3, 4)` leaves the pin at
`(3, 4)`. -/
theorem drag_pin_persists_witness :
    (dragEnded true
        ([((1 : ℚ), (2 : ℚ)), ((3 : ℚ), (4 : ℚ))].foldl
          (fun n m => dragged n m.1 m.2)
          (dragStarted true
            (GraphNode.mk "n" NodeType.book "N" (some 5) (some 6)
              none none none none false 0)))).fx = some 3 ∧
    (dragEnded true
        ([((1 : ℚ), (2 : ℚ)), ((3 : ℚ), (4 : ℚ))].foldl
          (fun n m => dragged n m.1 m.2)
          (dragStarted true
            (GraphNode.mk "n" NodeType.book "N" (some 5) (some 6)
              none none none none false 0)))).fy = some 4 :=
  drag_pin_persists
    (GraphNode.mk "n" NodeType.book "N" (some 5) (some 6) none none none none false 0)
    [((1 : ℚ), (2 : ℚ)), ((3 : ℚ), (4 : ℚ))] (by simp)

end GraphEngine

namespace GraphEngine

/-- C5 (counterexample): a node positioned exactly at the origin (a valid
position) is skipped by `findNodeAt` because `!node.x || !node.y` treats
coordinate `0` as falsy: probing at the node's own position returns
`null`, while the specification's scan (skipping only nodes lacking a
position) returns the node. -/
theorem findNodeAt_zero_coordinate_counterexample :
    findNodeAt defaultConfig 0 0
      [GraphNode.mk "n" NodeType.book "N" (some 0) (some 0)
        none none none none false 0] = none ∧
    findNodeAtSpecModel defaultConfig 0 0
      [GraphNode.mk "n" NodeType.book "N" (some 0) (some 0)
        none none none none false 0]
      = some (GraphNode.mk "n" NodeType.book "N" (some 0) (some 0)
          none none none none false 0) := by
  constructor
  · norm_num [findNodeAt]
  · norm_num [findNodeAtSpecModel, getNodeRadius, getNodeTypeMultiplier, defaultConfig]

/-- C5 (amended): `findNodeAt` returns the first node in input order that
has a present and nonzero `x` and `y` and whose disk (of radius
`getNodeRadius`) contains the point, and `null` exactly when no node
qualifies; nodes lacking a position — and also nodes at coordinate `0`,
which the falsy test skips — are passed over. -/
theorem findNodeAt_first_hit_amended (cfg : GraphEngineConfig) (x y : ℚ)
    (nodes : List GraphNode) :
    findNodeAt cfg x y nodes = nodes.find? (nodeHit cfg x y) ∧
    (findNodeAt cfg x y nodes = none ↔
      ∀ n ∈ nodes, nodeHit cfg x y n = false) := by
  have h1 : ∀ ns : List GraphNode,
      findNodeAt cfg x y ns = ns.find? (nodeHit cfg x y) := by
    intro ns
    induction ns with
    | nil => rfl
    | cons n rest ih =>
      have hskip : ∀ _ : nodeHit cfg x y n = false,
          List.find? (nodeHit cfg x y) (n :: rest) = List.find? (nodeHit cfg x y) rest :=
        fun hh => List.find?_cons_of_neg _ (by simp [hh])
      rcases hx : n.x with _ | nx
      · have hh : nodeHit cfg x y n = false := by
          unfold nodeHit
          rw [hx]
        rw [hskip hh, ← ih]
        conv_lhs => rw [findNodeAt]
        rw [hx]
      · rcases hy : n.y with _ | ny
        · have hh : nodeHit cfg x y n = false := by
            unfold nodeHit
            rw [hx, hy]
          rw [hskip hh, ← ih]
          conv_lhs => rw [findNodeAt]
          rw [hx, hy]
        · by_cases hz : nx = 0 ∨ ny = 0
          · have hh : nodeHit cfg x y n = false := by
              unfold nodeHit
              rw [hx, hy]
              show (if nx = 0 ∨ ny = 0 then false
                else decide (0 ≤ getNodeRadius cfg n ∧
                  (x - nx) ^ 2 + (y - ny) ^ 2 ≤ getNodeRadius cfg n ^ 2)) = false
              rw [if_pos hz]
            rw [hskip hh, ← ih]
            conv_lhs => rw [findNodeAt]
            rw [hx, hy]
            show (if nx = 0 ∨ ny = 0 then findNodeAt cfg x y rest
              else if 0 ≤ getNodeRadius cfg n ∧
                  (x - nx) ^ 2 + (y - ny) ^ 2 ≤ getNodeRadius cfg n ^ 2 then some n
                else findNodeAt cfg x y rest) = findNodeAt cfg x y rest
            rw [if_pos hz]
          · by_cases hhit : 0 ≤ getNodeRadius cfg n ∧
                (x - nx) ^ 2 + (y - ny) ^ 2 ≤ getNodeRadius cfg n ^ 2
            · have hh : nodeHit cfg x y n = true := by
                unfold nodeHit
                rw [hx, hy]
                show (if nx = 0 ∨ ny = 0 then false
                  else decide (0 ≤ getNodeRadius cfg n ∧
                    (x - nx) ^ 2 + (y - ny) ^ 2 ≤ getNodeRadius cfg n ^ 2)) = true
                rw [if_neg hz]
                exact decide_eq_true hhit
              rw [List.find?_cons_of_pos _ hh]
              conv_lhs => rw [findNodeAt]
              rw [hx, hy]
              show (if nx = 0 ∨ ny = 0 then findNodeAt cfg x y rest
                else if 0 ≤ getNodeRadius cfg n ∧
                    (x - nx) ^ 2 + (y - ny) ^ 2 ≤ getNodeRadius cfg n ^ 2 then some n
                  else findNodeAt cfg x y rest) = some n
              rw [if_neg hz, if_pos hhit]
            · have hh : nodeHit cfg x y n = false := by
                unfold nodeHit
                rw [hx, hy]
                show (if nx = 0 ∨ ny = 0 then false
                  else decide (0 ≤ getNodeRadius cfg n ∧
                    (x - nx) ^ 2 + (y - ny) ^ 2 ≤ getNodeRadius cfg n ^ 2)) = false
                rw [if_neg hz]
                exact decide_eq_false hhit
              rw [hskip hh, ← ih]
              conv_lhs => rw [findNodeAt]
              rw [hx, hy]
              show (if nx = 0 ∨ ny = 0 then findNodeAt cfg x y rest
                else if 0 ≤ getNodeRadius cfg n ∧
                    (x - nx) ^ 2 + (y - ny) ^ 2 ≤ getNodeRadius cfg n ^ 2 then some n
                  else findNodeAt cfg x y rest) = findNodeAt cfg x y rest
              rw [if_neg hz, if_neg hhit]
  refine ⟨h1 nodes, ?_⟩
  rw [h1 nodes, List.find?_eq_none]
  constructor
  · intro h n hn
    simpa using h n hn
  · intro h n hn
    simp [h n hn]

end GraphEngine
